import Mathlib

/-!
Shallow embedding of the two source files of the repository
`the-weakest-hint`:

* `description_creator.py` — cleaning of LLM responses
  (`clean_description`, lines 28-68), the per-game generation wrapper
  (`generate_game_description`, lines 70-102) and the offline batch
  driver (`generate_descriptions_for_all_games`, lines 105-151);
* `app.py` — quiz question generation (`create_questions`, lines 23-78)
  and the answer route (`post /answer`, lines 277-298).

Python strings are modelled as `List Char`; the randomness of the
`random` module is an oracle stream of naturals; Python built-in
exceptions are an explicit error type and fallible operations return
`Except`/`Option`.  All recursive functions are structurally recursive
(a fuel argument bounded by an explicit measure where the Python loop
is not structural), so every definition evaluates by kernel reduction.
-/

namespace WeakestHint

/-! ### Python primitives -/

/-- Python built-in exceptions raised by the modelled code, plus the
`InsufficientCatalogError` that the specification names.  The source
never defines or raises `InsufficientCatalogError`; the constructor
exists only so that the corresponding claim can be stated. -/
inductive PyErr where
  | valueError
  | indexError
  | keyError
  | insufficientCatalog
deriving DecidableEq, Inhabited

instance {ε α : Type} [DecidableEq ε] [DecidableEq α] : DecidableEq (Except ε α) := fun a b =>
  match a, b with
  | .error e, .error f => decidable_of_iff (e = f) (by simp)
  | .ok x, .ok y => decidable_of_iff (x = y) (by simp)
  | .error _, .ok _ => isFalse (fun h => Except.noConfusion h)
  | .ok _, .error _ => isFalse (fun h => Except.noConfusion h)

/-- The whitespace characters recognised by Python `str.split()` and
`str.strip()` with no argument. -/
def pySpaceChars : List Char := [' ', '\t', '\n', '\r', '\x0b', '\x0c']

def isPySpace (c : Char) : Bool := pySpaceChars.contains c

/-- ASCII case table used to model Python `str.lower` and
`str.capitalize` (the catalog titles, prompts and responses handled by
the program are ASCII; other characters pass through unchanged). -/
def casePairs : List (Char × Char) :=
  [('a','A'),('b','B'),('c','C'),('d','D'),('e','E'),('f','F'),('g','G'),
   ('h','H'),('i','I'),('j','J'),('k','K'),('l','L'),('m','M'),('n','N'),
   ('o','O'),('p','P'),('q','Q'),('r','R'),('s','S'),('t','T'),('u','U'),
   ('v','V'),('w','W'),('x','X'),('y','Y'),('z','Z')]

def pyToUpper (c : Char) : Char :=
  match casePairs.find? (fun p => p.1 == c) with
  | some p => p.2
  | none => c

def pyToLower (c : Char) : Char :=
  match casePairs.find? (fun p => p.2 == c) with
  | some p => p.1
  | none => c

/-- Python `str.lower()`. -/
def pyLower (w : List Char) : List Char := w.map pyToLower

/-- Python `str.capitalize()`: first character upper-cased, the rest
lower-cased. -/
def pyCapitalize : List Char → List Char
  | [] => []
  | c :: rest => pyToUpper c :: rest.map pyToLower

/-- Python `str.strip()` with no argument: drop leading and trailing
whitespace. -/
def pyStripWs (s : List Char) : List Char :=
  ((s.dropWhile isPySpace).reverse.dropWhile isPySpace).reverse

/-! ### `description_creator.py`, `clean_description` (lines 28-68) -/

/-- `description.split(chr(10))[0]`: the text up to the first line
break (source line 42). -/
def firstLine (s : List Char) : List Char := s.takeWhile (fun c => c != '\n')

/-- `line.split(". ")[0]`: the text up to the first occurrence of a
full stop followed by a space (source line 43). -/
def firstSentence : List Char → List Char
  | [] => []
  | [c] => [c]
  | c :: d :: rest =>
    if c = '.' ∧ d = ' ' then [] else c :: firstSentence (d :: rest)

/-- `first_sentence.replace("*", "")` (source line 44). -/
def removeStars (s : List Char) : List Char := s.filter (fun c => c != '*')

/-- Whether the string contains a full stop immediately followed by a
space, i.e. whether `split(". ")` would cut it. -/
def hasDotSpace : List Char → Bool
  | [] => false
  | [_] => false
  | c :: d :: rest => if c = '.' ∧ d = ' ' then true else hasDotSpace (d :: rest)

/-- Lines 47-49: strip a matching pair of wrapping straight quotes
(both double or both single).  On a single quote character both
`startswith` and `endswith` hold and Python returns the empty string,
as does `(s.drop 1).dropLast`. -/
def stripWrappingQuotes (s : List Char) : List Char :=
  if (s.head? = some '"' ∧ s.getLast? = some '"') ∨
     (s.head? = some '\'' ∧ s.getLast? = some '\'') then
    (s.drop 1).dropLast
  else s

/-- Worker for `str.split()`: `cur` is the word currently being
accumulated (in order). -/
def splitWsGo : List Char → List Char → List (List Char)
  | [], cur => if cur = [] then [] else [cur]
  | c :: rest, cur =>
    if isPySpace c then
      if cur = [] then splitWsGo rest [] else cur :: splitWsGo rest []
    else splitWsGo rest (cur ++ [c])

/-- Python `str.split()` with no argument: split on runs of whitespace,
discarding empty words (source line 52). -/
def splitWs (s : List Char) : List (List Char) := splitWsGo s []

/-- The `bad_endings` set of source line 39. -/
def badEndings : List (List Char) :=
  ["a", "an", "the", "and", "or", "to", "at", "on", "in",
   "with", "for", "by", "of"].map String.data

/-- `words[-1].lower().rstrip(",.!?") in bad_endings` (source
line 57). -/
def isBadEnding (w : List Char) : Bool :=
  badEndings.contains
    (((pyLower w).reverse.dropWhile (fun c => [',', '.', '!', '?'].contains c)).reverse)

/-- The `while` loop of source lines 57-58, with explicit fuel: each
iteration removes the last word, so `ws.length` iterations always
suffice. -/
def dropBadGo : Nat → List (List Char) → List (List Char)
  | 0, ws => ws
  | n + 1, ws =>
    if 4 < ws.length ∧ isBadEnding (ws.getLastD []) then dropBadGo n ws.dropLast
    else ws

/-- Source lines 42-53: the word list before the trailing-stop-word
loop (`words = first_sentence.split()[:7]`). -/
def cleanWords (s : List Char) : List (List Char) :=
  (splitWs (stripWrappingQuotes (removeStars (firstSentence (firstLine s))))).take 7

/-- The word list after the trailing-stop-word loop of lines 57-58. -/
def droppedWords (s : List Char) : List (List Char) :=
  dropBadGo (cleanWords s).length (cleanWords s)

/-- The fixed fallback phrase of source lines 62 and 102. -/
def fallbackPhrase : List Char := "Mystery game with secrets".data

/-- `words[0] = words[0].capitalize()` guarded by `if words:` (source
lines 65-66). -/
def capFirst : List (List Char) → List (List Char)
  | [] => []
  | w :: ws => pyCapitalize w :: ws

/-- `" ".join(words)` (source line 68). -/
def joinSpace : List (List Char) → List Char
  | [] => []
  | [w] => w
  | w :: ws => w ++ ' ' :: joinSpace ws

/-- `clean_description` of source lines 28-68. -/
def clean_description (s : List Char) : List Char :=
  if (droppedWords s).length < 4 then fallbackPhrase
  else pyStripWs (joinSpace (capFirst (droppedWords s)))

/-- Variant of the trailing-stop-word loop in which the `words[-1]`
subscript of source line 57 is modelled by `getLast?`, returning `none`
where Python would raise `IndexError` (an empty `words` while
`len(words) > 4` held). -/
def dropBadGoE : Nat → List (List Char) → Option (List (List Char))
  | 0, ws => some ws
  | n + 1, ws =>
    if 4 < ws.length then
      match ws.getLast? with
      | none => none
      | some w => if isBadEnding w then dropBadGoE n ws.dropLast else some ws
    else some ws

/-- Variant of `clean_description` in which every list subscript of the
source (`words[-1]` on line 57, `words[0]` on line 66, guarded by
`if words:` on line 65) is modelled by a fallible access, returning
`none` exactly where Python would raise `IndexError`. -/
def clean_descriptionE (s : List Char) : Option (List Char) :=
  match dropBadGoE (cleanWords s).length (cleanWords s) with
  | none => none
  | some words =>
    if words.length < 4 then some fallbackPhrase
    else
      if words = [] then some (pyStripWs (joinSpace words))
      else
        match words.head? with
        | none => none
        | some w => some (pyStripWs (joinSpace (pyCapitalize w :: words.tail)))

/-! ### `description_creator.py`, batch driver (lines 70-151) -/

/-- One record of `games.json` as read by `load_games` (line 15-17):
only the `game` and `genre` fields are used by this repository. -/
structure GameRec where
  game : List Char
  genre : List Char
deriving DecidableEq, Inhabited

/-- `generate_game_description` (source lines 70-102).  The external
service call is an oracle value: `some raw` models `hf_connect`
returning the raw completion text, `none` models any exception, which
line 99-102 catches and maps to the fallback phrase. -/
def generate_game_description (response : Option (List Char)) : List Char :=
  match response with
  | some raw => clean_description raw
  | none => fallbackPhrase

/-- The `while len(game_descriptions) < 5` loop of source lines
129-143 for a single game.  `o i` is the outcome of the `i`-th service
call for this game, `acc` is `game_descriptions`, `retry` is
`retry_count` (`max_retries = 3`).  A fallback result increments
`retry` and gives up once it reaches 3; a success appends and resets
`retry` to 0. -/
def collectLoop (o : Nat → Option (List Char)) : Nat → List (List Char) → Nat → List (List Char)
  | i, acc, retry =>
    if 5 ≤ acc.length then acc
    else
      if generate_game_description (o i) = fallbackPhrase then
        if 3 ≤ retry + 1 then acc
        else collectLoop o (i + 1) acc (retry + 1)
      else collectLoop o (i + 1) (acc ++ [generate_game_description (o i)]) 0
termination_by _ acc retry => (5 - acc.length) * 4 + (3 - retry)
decreasing_by
  all_goals simp_all [List.length_append]
  all_goals omega

/-- The `for game in games` loop of `generate_descriptions_for_all_games`
(source lines 116-151).  `tbl` is the `descriptions` dict (an ordered
association list, as a Python dict is), `req` records, in order, the
titles for which the external service is actually invoked (each
processed game performs at least one call).  A title already present in
`tbl` is skipped (lines 120-122); otherwise the collected list is
stored under the title (line 146). -/
def driverGo (o : List Char → Nat → Option (List Char)) :
    List GameRec → List (List Char × List (List Char)) → List (List Char) →
    List (List Char × List (List Char)) × List (List Char)
  | [], tbl, req => (tbl, req)
  | g :: rest, tbl, req =>
    if (tbl.map Prod.fst).contains g.game then driverGo o rest tbl req
    else driverGo o rest (tbl ++ [(g.game, collectLoop (o g.game) 0 [] 0)]) (req ++ [g.game])

/-- `generate_descriptions_for_all_games` (source lines 105-151).
`init` is the `game_descriptions.json` table found on disk (empty when
the file does not exist, lines 110-114); the result is the final table
together with the list of titles requested from the external
service. -/
def generate_descriptions_for_all_games (games : List GameRec)
    (init : List (List Char × List (List Char)))
    (o : List Char → Nat → Option (List Char)) :
    List (List Char × List (List Char)) × List (List Char) :=
  driverGo o games init []

/-! ### `app.py`, question generation (lines 23-78) -/

/-- A record of `games.json` as used by `app.py` (fields `game` and
`genre`).  At this level only equality of strings matters, so Lean
`String` is used. -/
structure PyGame where
  game : String
  genre : String
deriving DecidableEq, Inhabited

/-- A generated question (source lines 72-76). -/
structure Question where
  description : String
  correct_answer : String
  choices : List String
deriving DecidableEq, Inhabited

/-- The random oracle: the value of the `n`-th draw made by the
`random` module during one call of `create_questions`. -/
abbrev RandStream := Nat → Nat

/-- Position of the next oracle value to consume. -/
structure RState where
  r : RandStream
  c : Nat

def rnext (s : RState) : Nat × RState := (s.r s.c, ⟨s.r, s.c + 1⟩)

/-- `random.randint(0, len(l) - 1)`: an arbitrary in-range index chosen
by the oracle.  On an empty list Python evaluates `randint(0, -1)`,
which raises `ValueError` (empty range for randrange). -/
def pyRandIndex {α : Type} (l : List α) (s : RState) : Except PyErr (Nat × RState) :=
  if l.length = 0 then .error .valueError
  else
    let (v, s2) := rnext s
    .ok (v % l.length, s2)

/-- `random.choice(l)`: an arbitrary element chosen by the oracle.  On
an empty sequence Python raises `IndexError`. -/
def pyChoice {α : Type} [Inhabited α] (l : List α) (s : RState) : Except PyErr (α × RState) :=
  if l.length = 0 then .error .indexError
  else
    let (v, s2) := rnext s
    .ok (l.getD (v % l.length) default, s2)

/-- `descriptions[game_title]`: Python dict subscript, raising
`KeyError` when the title is absent. -/
def pyDictGet (tbl : List (String × List String)) (k : String) : Except PyErr (List String) :=
  match tbl.find? (fun p => p.1 == k) with
  | some p => .ok p.2
  | none => .error .keyError

/-- `random.shuffle(l)`: an oracle-chosen permutation, built by
repeatedly extracting an oracle-chosen element.  The fuel is the list
length, which is exactly the number of extractions performed. -/
def pyShuffleGo {α : Type} [Inhabited α] : Nat → RState → List α → List α × RState
  | 0, s, l => (l, s)
  | n + 1, s, l =>
    match l with
    | [] => ([], s)
    | _ :: _ =>
      let (v, s2) := rnext s
      let j := v % l.length
      let (rest, s3) := pyShuffleGo n s2 (l.eraseIdx j)
      (l.getD j default :: rest, s3)

def pyShuffle {α : Type} [Inhabited α] (s : RState) (l : List α) : List α × RState :=
  pyShuffleGo l.length s l

/-- Source lines 55-76, the part of a round after the same-genre decoy
has been chosen: pop the two different-genre decoys from a freshly
computed different-genre list (in the fallback case that list still
contains the already-chosen fallback decoy `sgc`), draw a description
from `descriptions[game_title]`, shuffle the four choices and emit the
question record together with the fallback flag `ufb`
(instrumentation only). -/
def roundFinish (descs : List (String × List String)) (rg : PyGame) (sgc : String)
    (ufb : Bool) (avail2 : List PyGame) (s2 : RState) :
    Except PyErr ((Question × Bool) × (List PyGame × RState)) :=
  let diff_genre_games := avail2.filter (fun g => g.genre != rg.genre)
  match pyRandIndex diff_genre_games s2 with
  | .error e => .error e
  | .ok (idx1, s3) =>
    let first_choice := diff_genre_games.getD idx1 default
    let diff2 := diff_genre_games.eraseIdx idx1
    match pyRandIndex diff2 s3 with
    | .error e => .error e
    | .ok (idx2, s4) =>
      let second_choice := diff2.getD idx2 default
      match pyDictGet descs rg.game with
      | .error e => .error e
      | .ok descList =>
        match pyChoice descList s4 with
        | .error e => .error e
        | .ok (description, s5) =>
          let all_choices := [rg.game, sgc, first_choice.game, second_choice.game]
          .ok ((⟨description, rg.game, (pyShuffle s5 all_choices).1⟩, ufb),
            (avail2, (pyShuffle s5 all_choices).2))

/-- One iteration of the `for i in range(5)` loop of `create_questions`
(source lines 37-76).  Returns the generated question, the flag telling
whether the same-genre fallback of lines 50-53 was taken
(instrumentation only), the remaining pool and the oracle state.
Mirrors the source exactly: the correct answer is popped from the pool;
the same-genre decoy is chosen among the remaining same-genre games,
falling back to a different-genre game when none remains; the rest of
the round is `roundFinish`. -/
def roundStep (descs : List (String × List String)) (avail : List PyGame) (s0 : RState) :
    Except PyErr ((Question × Bool) × (List PyGame × RState)) :=
  match pyRandIndex avail s0 with
  | .error e => .error e
  | .ok (idx, s1) =>
    let random_game := avail.getD idx default
    let avail2 := avail.eraseIdx idx
    let same_genre_games := avail2.filter (fun g => g.genre == random_game.genre)
    if same_genre_games.length = 0 then
      match pyChoice (avail2.filter (fun g => g.genre != random_game.genre)) s1 with
      | .error e => .error e
      | .ok (g, s2) => roundFinish descs random_game g.game true avail2 s2
    else
      match pyChoice same_genre_games s1 with
      | .error e => .error e
      | .ok (g, s2) => roundFinish descs random_game g.game false avail2 s2

/-- The five-round loop of `create_questions`, with instrumented
fallback flags. -/
def createQuestionsAux (descs : List (String × List String)) :
    Nat → List PyGame → RState → Except PyErr (List (Question × Bool))
  | 0, _, _ => .ok []
  | n + 1, avail, s =>
    match roundStep descs avail s with
    | .error e => .error e
    | .ok (qb, (avail2, s2)) =>
      match createQuestionsAux descs n avail2 s2 with
      | .error e => .error e
      | .ok rest => .ok (qb :: rest)

/-- `create_questions` (source lines 23-78): five rounds over a copy of
the catalog, propagating any Python exception. -/
def create_questions (games : List PyGame) (descs : List (String × List String))
    (r : RandStream) : Except PyErr (List Question) :=
  Except.map (fun qbs => qbs.map Prod.fst) (createQuestionsAux descs 5 games ⟨r, 0⟩)

/-! ### `app.py`, the `/answer` route (lines 277-298) -/

/-- Python list subscript with an `int` index: non-negative indices
below the length are direct, negative indices from `-len` count from
the end, anything else raises `IndexError`. -/
def pyIndex (l : List String) (i : Int) : Except PyErr String :=
  if 0 ≤ i ∧ i < (l.length : Int) then .ok (l.getD i.toNat "")
  else if -(l.length : Int) ≤ i ∧ i < 0 then .ok (l.getD (i + (l.length : Int)).toNat "")
  else .error .indexError

/-- The answer-checking part of the `/answer` handler (source lines
287-293): look up `q["choices"][choice_idx]`, compare with the correct
answer and update the score. -/
def answerPost (q : Question) (score : Nat) (choice_idx : Int) : Except PyErr (Bool × Nat) :=
  match pyIndex q.choices choice_idx with
  | .error e => .error e
  | .ok chosen =>
    let is_correct := chosen == q.correct_answer
    .ok (is_correct, if is_correct then score + 1 else score)

/-! ### Concrete inputs used by counterexamples and witnesses -/

/-- A ten-game catalog: one game with a unique genre and two further
genres with five and four games. -/
def catalog10 : List PyGame :=
  [⟨"A", "g0"⟩, ⟨"B1", "g1"⟩, ⟨"B2", "g1"⟩, ⟨"B3", "g1"⟩, ⟨"B4", "g1"⟩,
   ⟨"B5", "g1"⟩, ⟨"C1", "g2"⟩, ⟨"C2", "g2"⟩, ⟨"C3", "g2"⟩, ⟨"C4", "g2"⟩]

/-- A description table holding one description for every catalog
title. -/
def table10 : List (String × List String) :=
  [("A", ["d"]), ("B1", ["d"]), ("B2", ["d"]), ("B3", ["d"]), ("B4", ["d"]),
   ("B5", ["d"]), ("C1", ["d"]), ("C2", ["d"]), ("C3", ["d"]), ("C4", ["d"])]

/-- The all-zero random stream (every draw picks index 0). -/
def r0 : RandStream := fun _ => 0

/-- The instrumented five-round run on `catalog10` with the all-zero
stream. -/
def c1run : Except PyErr (List (Question × Bool)) :=
  createQuestionsAux table10 5 catalog10 ⟨r0, 0⟩

def c1runQbs : List (Question × Bool) := c1run.toOption.getD []

/-- The plain run of `create_questions` on `catalog10`. -/
def c5runQs : List Question := (create_questions catalog10 table10 r0).toOption.getD []

/-- A well-formedness predicate for the words produced by `splitWs`:
nonempty and free of whitespace. -/
def goodTok (t : List Char) : Prop := t ≠ [] ∧ ∀ c ∈ t, isPySpace c = false

/-! ### Helper lemmas: the ASCII case table -/

theorem pyToUpper_idem (c : Char) : pyToUpper (pyToUpper c) = pyToUpper c := by
  have fact : ∀ q ∈ casePairs, casePairs.find? (fun x => x.1 == q.2) = none := by decide
  cases h : casePairs.find? (fun p => p.1 == c) with
  | none =>
    have h1 : pyToUpper c = c := by unfold pyToUpper; rw [h]
    rw [h1, h1]
  | some p =>
    have h1 : pyToUpper c = p.2 := by unfold pyToUpper; rw [h]
    rw [h1]; unfold pyToUpper; rw [fact p (List.mem_of_find?_eq_some h)]

theorem pyToLower_idem (c : Char) : pyToLower (pyToLower c) = pyToLower c := by
  have fact : ∀ q ∈ casePairs, casePairs.find? (fun x => x.2 == q.1) = none := by decide
  cases h : casePairs.find? (fun p => p.2 == c) with
  | none =>
    have h1 : pyToLower c = c := by unfold pyToLower; rw [h]
    rw [h1, h1]
  | some p =>
    have h1 : pyToLower c = p.1 := by unfold pyToLower; rw [h]
    rw [h1]; unfold pyToLower; rw [fact p (List.mem_of_find?_eq_some h)]

theorem isPySpace_pyToUpper (c : Char) (h : isPySpace c = false) :
    isPySpace (pyToUpper c) = false := by
  have fact : ∀ q ∈ casePairs, isPySpace q.2 = false := by decide
  cases hf : casePairs.find? (fun p => p.1 == c) with
  | none => unfold pyToUpper; rw [hf]; exact h
  | some p => unfold pyToUpper; rw [hf]; exact fact p (List.mem_of_find?_eq_some hf)

theorem isPySpace_pyToLower (c : Char) (h : isPySpace c = false) :
    isPySpace (pyToLower c) = false := by
  have fact : ∀ q ∈ casePairs, isPySpace q.1 = false := by decide
  cases hf : casePairs.find? (fun p => p.2 == c) with
  | none => unfold pyToLower; rw [hf]; exact h
  | some p => unfold pyToLower; rw [hf]; exact fact p (List.mem_of_find?_eq_some hf)

theorem map_pyToLower_idem (l : List Char) :
    (l.map pyToLower).map pyToLower = l.map pyToLower := by
  induction l with
  | nil => rfl
  | cons c cs ih => simp only [List.map_cons, pyToLower_idem, ih]

theorem pyCapitalize_idem (w : List Char) :
    pyCapitalize (pyCapitalize w) = pyCapitalize w := by
  cases w with
  | nil => rfl
  | cons c cs =>
    simp only [pyCapitalize, pyToUpper_idem, map_pyToLower_idem]

theorem goodTok_pyCapitalize {w : List Char} (h : goodTok w) : goodTok (pyCapitalize w) := by
  obtain ⟨hne, hchars⟩ := h
  cases w with
  | nil => exact absurd rfl hne
  | cons c cs =>
    refine ⟨by simp [pyCapitalize], ?_⟩
    intro x hx
    simp only [pyCapitalize, List.mem_cons, List.mem_map] at hx
    rcases hx with rfl | ⟨y, hy, rfl⟩
    · exact isPySpace_pyToUpper c (hchars c (List.mem_cons_self c cs))
    · exact isPySpace_pyToLower y (hchars y (List.mem_cons_of_mem c hy))

/-! ### Helper lemmas: `splitWs` and `joinSpace` -/

theorem splitWsGo_good : ∀ (l cur : List Char), (∀ c ∈ cur, isPySpace c = false) →
    ∀ t ∈ splitWsGo l cur, goodTok t := by
  intro l
  induction l with
  | nil =>
    intro cur hcur t ht
    by_cases hc : cur = []
    · simp [splitWsGo, hc] at ht
    · simp [splitWsGo, hc] at ht
      exact ht ▸ ⟨hc, hcur⟩
  | cons c rest ih =>
    intro cur hcur t ht
    by_cases hs : isPySpace c
    · by_cases hc : cur = []
      · simp only [splitWsGo, hs, if_true, hc, if_pos rfl] at ht
        exact ih [] (by simp) t ht
      · simp only [splitWsGo, hs, if_true, if_neg hc, List.mem_cons] at ht
        rcases ht with rfl | ht
        · exact ⟨hc, hcur⟩
        · exact ih [] (by simp) t ht
    · simp only [splitWsGo, hs, if_false] at ht
      refine ih (cur ++ [c]) ?_ t ht
      intro x hx
      rcases List.mem_append.1 hx with hx | hx
      · exact hcur x hx
      · simp at hx
        exact hx ▸ (by simpa using hs)

theorem splitWs_good (s : List Char) : ∀ t ∈ splitWs s, goodTok t :=
  splitWsGo_good s [] (by simp)

theorem splitWsGo_append : ∀ (t : List Char), (∀ c ∈ t, isPySpace c = false) →
    ∀ (rest cur : List Char), splitWsGo (t ++ rest) cur = splitWsGo rest (cur ++ t) := by
  intro t
  induction t with
  | nil => intro _ rest cur; simp
  | cons c t ih =>
    intro h rest cur
    have hc : isPySpace c = false := h c (List.mem_cons_self c t)
    have ht : ∀ x ∈ t, isPySpace x = false := fun x hx => h x (List.mem_cons_of_mem c hx)
    simp only [List.cons_append, splitWsGo, hc, Bool.false_eq_true, if_false]
    rw [show t.append rest = t ++ rest from rfl, ih ht rest (cur ++ [c])]
    simp

theorem splitWs_joinSpace : ∀ (ts : List (List Char)), (∀ t ∈ ts, goodTok t) →
    splitWs (joinSpace ts) = ts := by
  intro ts
  induction ts with
  | nil => intro _; rfl
  | cons t tss ih =>
    intro hgood
    obtain ⟨htne, htch⟩ := hgood t (List.mem_cons_self t tss)
    cases tss with
    | nil =>
      show splitWsGo (joinSpace [t]) [] = [t]
      have : joinSpace [t] = t := rfl
      rw [this, show (t : List Char) = t ++ [] by simp, splitWsGo_append t htch [] []]
      simp [splitWsGo, htne]
    | cons t2 tss2 =>
      show splitWsGo (joinSpace (t :: t2 :: tss2)) [] = t :: t2 :: tss2
      have hj : joinSpace (t :: t2 :: tss2) = t ++ ' ' :: joinSpace (t2 :: tss2) := rfl
      rw [hj, splitWsGo_append t htch _ []]
      simp only [List.nil_append, splitWsGo, show isPySpace ' ' = true by decide, if_true,
        if_neg htne]
      congr 1
      exact ih (fun x hx => hgood x (List.mem_cons_of_mem t hx))

theorem joinSpace_chars : ∀ (ts : List (List Char)) (c : Char), c ∈ joinSpace ts →
    c = ' ' ∨ ∃ t ∈ ts, c ∈ t := by
  intro ts
  induction ts with
  | nil => intro c hc; simp [joinSpace] at hc
  | cons t tss ih =>
    intro c hc
    cases tss with
    | nil =>
      right
      exact ⟨t, List.mem_cons_self t [], hc⟩
    | cons t2 tss2 =>
      have hj : joinSpace (t :: t2 :: tss2) = t ++ ' ' :: joinSpace (t2 :: tss2) := rfl
      rw [hj] at hc
      rcases List.mem_append.1 hc with hc | hc
      · exact Or.inr ⟨t, List.mem_cons_self t _, hc⟩
      · rcases List.mem_cons.1 hc with rfl | hc
        · exact Or.inl rfl
        · rcases ih c hc with h | ⟨u, hu, hcu⟩
          · exact Or.inl h
          · exact Or.inr ⟨u, List.mem_cons_of_mem t hu, hcu⟩

theorem joinSpace_ne_nil : ∀ (ts : List (List Char)), ts ≠ [] →
    (∀ t ∈ ts, goodTok t) → joinSpace ts ≠ [] := by
  intro ts hne hgood
  cases ts with
  | nil => exact absurd rfl hne
  | cons t tss =>
    obtain ⟨htne, _⟩ := hgood t (List.mem_cons_self t tss)
    cases tss with
    | nil => exact htne
    | cons t2 tss2 =>
      show t ++ ' ' :: joinSpace (t2 :: tss2) ≠ []
      simp

theorem joinSpace_head? : ∀ (ts : List (List Char)), ts ≠ [] → (∀ t ∈ ts, goodTok t) →
    ∃ c, (joinSpace ts).head? = some c ∧ isPySpace c = false := by
  intro ts hne hgood
  cases ts with
  | nil => exact absurd rfl hne
  | cons t tss =>
    obtain ⟨htne, htch⟩ := hgood t (List.mem_cons_self t tss)
    cases t with
    | nil => exact absurd rfl htne
    | cons c cs =>
      refine ⟨c, ?_, htch c (List.mem_cons_self c cs)⟩
      cases tss with
      | nil => rfl
      | cons t2 tss2 => rfl

theorem getLast?_append_right : ∀ (l1 l2 : List Char), l2 ≠ [] →
    (l1 ++ l2).getLast? = l2.getLast? := by
  intro l1 l2 h2
  rw [← List.head?_reverse, ← List.head?_reverse, List.reverse_append]
  cases hr : l2.reverse with
  | nil => exact absurd (by simpa using hr) h2
  | cons d ys => simp

theorem joinSpace_getLast? : ∀ (ts : List (List Char)), ts ≠ [] → (∀ t ∈ ts, goodTok t) →
    ∃ c, (joinSpace ts).getLast? = some c ∧ isPySpace c = false := by
  intro ts
  induction ts with
  | nil => intro hne _; exact absurd rfl hne
  | cons t tss ih =>
    intro _ hgood
    obtain ⟨htne, htch⟩ := hgood t (List.mem_cons_self t tss)
    cases tss with
    | nil =>
      have : (joinSpace [t]) = t := rfl
      rw [this]
      obtain ⟨c, hc⟩ := Option.isSome_iff_exists.1 (List.getLast?_isSome.2 htne)
      refine ⟨c, hc, ?_⟩
      have hmem : c ∈ t := by
        cases t with
        | nil => exact absurd rfl htne
        | cons x xs =>
          have := List.getLast?_eq_getLast (x :: xs) (by simp)
          rw [this] at hc
          exact (Option.some_inj.1 hc) ▸ List.getLast_mem (by simp)
      exact htch c hmem
    | cons t2 tss2 =>
      have hj : joinSpace (t :: t2 :: tss2) = t ++ ' ' :: joinSpace (t2 :: tss2) := rfl
      obtain ⟨c, hc, hcs⟩ := ih (by simp) (fun x hx => hgood x (List.mem_cons_of_mem t hx))
      have hJne : joinSpace (t2 :: tss2) ≠ [] :=
        joinSpace_ne_nil _ (by simp) (fun x hx => hgood x (List.mem_cons_of_mem t hx))
      refine ⟨c, ?_, hcs⟩
      rw [hj, getLast?_append_right t _ (by simp)]
      cases hJ : joinSpace (t2 :: tss2) with
      | nil => exact absurd hJ hJne
      | cons d ys =>
        rw [List.getLast?_cons_cons]
        rw [hJ] at hc
        exact hc

/-! ### Helper lemmas: `pyStripWs` and `dropBadGo` -/

theorem pyStripWs_eq_self {l : List Char} {c d : Char} (hh : l.head? = some c)
    (hcs : isPySpace c = false) (hl : l.getLast? = some d) (hds : isPySpace d = false) :
    pyStripWs l = l := by
  unfold pyStripWs
  cases l with
  | nil => simp at hh
  | cons x xs =>
    have hx : x = c := by simpa using hh
    subst hx
    rw [List.dropWhile_cons, hcs]
    simp only [Bool.false_eq_true, if_false]
    cases hr : (x :: xs).reverse with
    | nil => simp at hr
    | cons y ys =>
      have hy : y = d := by
        have h2 := List.head?_reverse (x :: xs)
        rw [hr, hl] at h2
        simpa using h2
      subst hy
      rw [List.dropWhile_cons, hds]
      simp only [Bool.false_eq_true, if_false]
      rw [← hr, List.reverse_reverse]

theorem pyStripWs_joinSpace {ts : List (List Char)} (hne : ts ≠ [])
    (hgood : ∀ t ∈ ts, goodTok t) : pyStripWs (joinSpace ts) = joinSpace ts := by
  obtain ⟨c, hc, hcs⟩ := joinSpace_head? ts hne hgood
  obtain ⟨d, hd, hds⟩ := joinSpace_getLast? ts hne hgood
  exact pyStripWs_eq_self hc hcs hd hds

theorem dropBadGo_succ (n : Nat) (ws : List (List Char)) :
    dropBadGo (n + 1) ws =
      if 4 < ws.length ∧ isBadEnding (ws.getLastD []) = true then dropBadGo n ws.dropLast
      else ws := rfl

theorem dropBadGo_length_le : ∀ (n : Nat) (ws : List (List Char)),
    (dropBadGo n ws).length ≤ ws.length := by
  intro n
  induction n with
  | zero => intro ws; exact le_refl _
  | succ n ih =>
    intro ws
    by_cases h : 4 < ws.length ∧ isBadEnding (ws.getLastD []) = true
    · calc (dropBadGo (n + 1) ws).length = (dropBadGo n ws.dropLast).length := by
            rw [dropBadGo_succ, if_pos h]
        _ ≤ ws.dropLast.length := ih _
        _ ≤ ws.length := by rw [List.length_dropLast]; omega
    · rw [dropBadGo_succ, if_neg h]

theorem dropBadGo_length_ge : ∀ (n : Nat) (ws : List (List Char)), 4 ≤ ws.length →
    4 ≤ (dropBadGo n ws).length := by
  intro n
  induction n with
  | zero => intro ws h; exact h
  | succ n ih =>
    intro ws h
    by_cases hc : 4 < ws.length ∧ isBadEnding (ws.getLastD []) = true
    · rw [dropBadGo_succ, if_pos hc]
      exact ih _ (by rw [List.length_dropLast]; omega)
    · rw [dropBadGo_succ, if_neg hc]
      exact h

theorem dropBadGo_subset : ∀ (n : Nat) (ws : List (List Char)) (t : List Char),
    t ∈ dropBadGo n ws → t ∈ ws := by
  intro n
  induction n with
  | zero => intro ws t h; exact h
  | succ n ih =>
    intro ws t h
    by_cases hc : 4 < ws.length ∧ isBadEnding (ws.getLastD []) = true
    · rw [dropBadGo_succ, if_pos hc] at h
      exact List.dropLast_subset ws (ih _ t h)
    · rwa [dropBadGo_succ, if_neg hc] at h

theorem dropBadGo_noop {ws : List (List Char)}
    (h : ¬ (4 < ws.length ∧ isBadEnding (ws.getLastD []) = true)) :
    ∀ n, dropBadGo n ws = ws := by
  intro n
  cases n with
  | zero => rfl
  | succ n => rw [dropBadGo_succ, if_neg h]

/-! ### Helper lemmas: the shape of `clean_description` output -/

theorem droppedWords_good (s : List Char) : ∀ t ∈ droppedWords s, goodTok t := by
  intro t ht
  have h1 : t ∈ cleanWords s := dropBadGo_subset _ _ t ht
  have h2 : t ∈ splitWs (stripWrappingQuotes (removeStars (firstSentence (firstLine s)))) :=
    List.take_subset 7 _ h1
  exact splitWs_good _ t h2

theorem droppedWords_le_seven (s : List Char) : (droppedWords s).length ≤ 7 := by
  calc (droppedWords s).length ≤ (cleanWords s).length := dropBadGo_length_le _ _
    _ ≤ 7 := by
        unfold cleanWords
        rw [List.length_take]
        omega

theorem capFirst_good {ws : List (List Char)} (h : ∀ t ∈ ws, goodTok t) :
    ∀ t ∈ capFirst ws, goodTok t := by
  cases ws with
  | nil => intro t ht; simp [capFirst] at ht
  | cons w rest =>
    intro t ht
    rcases List.mem_cons.1 ht with rfl | ht
    · exact goodTok_pyCapitalize (h w (List.mem_cons_self w rest))
    · exact h t (List.mem_cons_of_mem w ht)

theorem capFirst_length (ws : List (List Char)) : (capFirst ws).length = ws.length := by
  cases ws <;> simp [capFirst]

/-- Shape of the non-fallback output of `clean_description`: it is the
space-join of the capitalised word list, whose words are nonempty,
whitespace-free and between 4 and 7 in number. -/
theorem clean_description_shape (s : List Char) (h : ¬ (droppedWords s).length < 4) :
    clean_description s = joinSpace (capFirst (droppedWords s)) ∧
    (∀ t ∈ capFirst (droppedWords s), goodTok t) ∧
    4 ≤ (capFirst (droppedWords s)).length ∧ (capFirst (droppedWords s)).length ≤ 7 := by
  have hgood : ∀ t ∈ capFirst (droppedWords s), goodTok t :=
    capFirst_good (droppedWords_good s)
  have hlen4 : 4 ≤ (capFirst (droppedWords s)).length := by
    rw [capFirst_length]; omega
  have hlen7 : (capFirst (droppedWords s)).length ≤ 7 := by
    rw [capFirst_length]; exact droppedWords_le_seven s
  have hne : capFirst (droppedWords s) ≠ [] := by
    intro hnil
    rw [hnil] at hlen4
    simp at hlen4
  refine ⟨?_, hgood, hlen4, hlen7⟩
  unfold clean_description
  rw [if_neg h]
  exact pyStripWs_joinSpace hne hgood

/-! ### Helper lemmas: identity steps for re-cleaning -/

theorem firstLine_noop {l : List Char} (h : ∀ c ∈ l, c ≠ '\n') : firstLine l = l := by
  unfold firstLine
  rw [List.takeWhile_eq_self_iff]
  intro x hx
  simpa using h x hx

theorem hasDotSpace_cons2 (c d : Char) (rest : List Char) :
    hasDotSpace (c :: d :: rest) =
      if c = '.' ∧ d = ' ' then true else hasDotSpace (d :: rest) := rfl

theorem firstSentence_cons2 (c d : Char) (rest : List Char) :
    firstSentence (c :: d :: rest) =
      if c = '.' ∧ d = ' ' then [] else c :: firstSentence (d :: rest) := rfl

theorem firstSentence_noop : ∀ (l : List Char), hasDotSpace l = false → firstSentence l = l := by
  intro l
  induction l with
  | nil => intro _; rfl
  | cons c rest ih =>
    cases rest with
    | nil => intro _; rfl
    | cons d rest2 =>
      intro h
      rw [hasDotSpace_cons2] at h
      by_cases hcd : c = '.' ∧ d = ' '
      · rw [if_pos hcd] at h; exact absurd h (by simp)
      · rw [if_neg hcd] at h
        rw [firstSentence_cons2, if_neg hcd, ih h]

theorem removeStars_noop {l : List Char} (h : '*' ∉ l) : removeStars l = l := by
  unfold removeStars
  rw [List.filter_eq_self]
  intro a ha
  simp only [bne_iff_ne, ne_eq]
  intro hs
  exact h (hs ▸ ha)

theorem stripWrappingQuotes_noop {l : List Char} (h1 : '"' ∉ l) (h2 : '\'' ∉ l) :
    stripWrappingQuotes l = l := by
  unfold stripWrappingQuotes
  cases l with
  | nil => simp
  | cons x xs =>
    have hx : x ∈ x :: xs := List.mem_cons_self x xs
    rw [if_neg]
    rintro (⟨hq, _⟩ | ⟨hq, _⟩)
    · have : x = '"' := by simpa using hq
      exact h1 (this ▸ hx)
    · have : x = '\'' := by simpa using hq
      exact h2 (this ▸ hx)

theorem capFirst_idem (ws : List (List Char)) : capFirst (capFirst ws) = capFirst ws := by
  cases ws with
  | nil => rfl
  | cons w rest => simp [capFirst, pyCapitalize_idem]

theorem contains_false_not_mem {l : List Char} {a : Char} (h : l.contains a = false) :
    a ∉ l := by
  intro hm
  have : l.contains a = true := List.elem_iff.2 hm
  rw [h] at this
  exact absurd this (by simp)

/-! ### Claim C4 -/

/-- C4: for every input string, `clean_description` either returns the
fixed fallback phrase or a string of 4 to 7 whitespace-delimited words,
and whenever fewer than 4 words remain after cleaning the result is the
fallback phrase. -/
theorem c4_clean_length_bounds (s : List Char) :
    ((droppedWords s).length < 4 → clean_description s = fallbackPhrase) ∧
    (clean_description s = fallbackPhrase ∨
      (4 ≤ (splitWs (clean_description s)).length ∧
        (splitWs (clean_description s)).length ≤ 7)) := by
  constructor
  · intro h
    unfold clean_description
    rw [if_pos h]
  · by_cases h : (droppedWords s).length < 4
    · left
      unfold clean_description
      rw [if_pos h]
    · right
      obtain ⟨heq, hgood, h4, h7⟩ := clean_description_shape s h
      rw [heq, splitWs_joinSpace _ hgood]
      exact ⟨h4, h7⟩

/-- C4 witness: the input `"Wow"` leaves a single word after cleaning,
and the result is the fallback phrase. -/
theorem c4_witness :
    (droppedWords "Wow".data).length < 4 ∧
      clean_description "Wow".data = fallbackPhrase :=
  ⟨by decide, (c4_clean_length_bounds "Wow".data).1 (by decide)⟩

/-! ### Claim C6 -/

/-- C6 (amended): `clean_description` is idempotent on every input
whose cleaned output contains no stop-word ending, no quote and no `*`
character, **and** no full stop followed by a space: re-cleaning splits
at the first `". "`, so a sentence boundary inside the output breaks
idempotence (see the counterexample). -/
theorem c6_idempotent_amended (x : List Char)
    (h1 : (clean_description x).contains '*' = false)
    (h2 : (clean_description x).contains '"' = false)
    (h3 : (clean_description x).contains '\'' = false)
    (h4 : hasDotSpace (clean_description x) = false)
    (h5 : isBadEnding ((splitWs (clean_description x)).getLastD []) = false) :
    clean_description (clean_description x) = clean_description x := by
  by_cases hf : (droppedWords x).length < 4
  · have hy : clean_description x = fallbackPhrase := by
      unfold clean_description
      rw [if_pos hf]
    rw [hy]
    decide
  · obtain ⟨heq, hgood, h4le, h7le⟩ := clean_description_shape x hf
    rw [heq] at h1 h2 h3 h4 h5 ⊢
    have hne : capFirst (droppedWords x) ≠ [] := by
      intro hnil
      rw [hnil] at h4le
      simp at h4le
    have hsw : splitWs (joinSpace (capFirst (droppedWords x))) = capFirst (droppedWords x) :=
      splitWs_joinSpace _ hgood
    have hnl : ∀ c ∈ joinSpace (capFirst (droppedWords x)), c ≠ '\n' := by
      intro c hc
      rcases joinSpace_chars _ c hc with rfl | ⟨t, ht, hct⟩
      · decide
      · intro hce
        have := (hgood t ht).2 c hct
        rw [hce] at this
        exact absurd this (by decide)
    have hcw : cleanWords (joinSpace (capFirst (droppedWords x))) = capFirst (droppedWords x) := by
      unfold cleanWords
      rw [firstLine_noop hnl, firstSentence_noop _ h4,
        removeStars_noop (contains_false_not_mem h1),
        stripWrappingQuotes_noop (contains_false_not_mem h2) (contains_false_not_mem h3),
        hsw, List.take_of_length_le h7le]
    have hdw : droppedWords (joinSpace (capFirst (droppedWords x))) =
        capFirst (droppedWords x) := by
      have hstep : droppedWords (joinSpace (capFirst (droppedWords x))) =
          dropBadGo (cleanWords (joinSpace (capFirst (droppedWords x)))).length
            (cleanWords (joinSpace (capFirst (droppedWords x)))) := rfl
      rw [hstep, hcw]
      refine dropBadGo_noop ?_ _
      rintro ⟨_, hbad⟩
      rw [hsw] at h5
      rw [h5] at hbad
      exact absurd hbad (by simp)
    unfold clean_description
    rw [hdw, if_neg (by omega), capFirst_idem]
    exact pyStripWs_joinSpace hne hgood

/-- C6 counterexample: the input `"Hey.\tbob mob job"` cleans to
`"Hey. bob mob job"`, which satisfies every condition of the claim as
stated (no stop-word ending, no quote, no `*`), yet re-cleaning splits
at the `". "` boundary and yields the fallback phrase instead. -/
theorem c6_counterexample :
    clean_description "Hey.\tbob mob job".data = "Hey. bob mob job".data ∧
    ("Hey. bob mob job".data).contains '*' = false ∧
    ("Hey. bob mob job".data).contains '"' = false ∧
    ("Hey. bob mob job".data).contains '\'' = false ∧
    (splitWs "Hey. bob mob job".data).all (fun w => ¬ isBadEnding w) = true ∧
    clean_description (clean_description "Hey.\tbob mob job".data) ≠
      clean_description "Hey.\tbob mob job".data := by
  decide

/-- C6 witness: a cleaned output with no sentence boundary, no quotes,
no stars and no stop-word ending is a fixed point. -/
theorem c6_witness :
    clean_description (clean_description "great game with mighty dragons attack".data) =
      clean_description "great game with mighty dragons attack".data :=
  c6_idempotent_amended _ (by decide) (by decide) (by decide) (by decide) (by decide)

/-! ### Claim C7 -/

theorem dropBadGoE_eq : ∀ (n : Nat) (ws : List (List Char)),
    dropBadGoE n ws = some (dropBadGo n ws) := by
  intro n
  induction n with
  | zero => intro ws; rfl
  | succ n ih =>
    intro ws
    by_cases h4 : 4 < ws.length
    · have hne : ws ≠ [] := by
        intro hnil
        rw [hnil] at h4
        simp at h4
      obtain ⟨w, hw⟩ := Option.isSome_iff_exists.1 (List.getLast?_isSome.2 hne)
      have hD : ws.getLastD [] = w := by
        rw [List.getLastD_eq_getLast?, hw]
        rfl
      show (if 4 < ws.length then
          match ws.getLast? with
          | none => none
          | some w => if isBadEnding w then dropBadGoE n ws.dropLast else some ws
        else some ws) = some (dropBadGo (n + 1) ws)
      rw [if_pos h4, hw, dropBadGo_succ]
      show (if isBadEnding w = true then dropBadGoE n ws.dropLast else some ws) =
        some (if 4 < ws.length ∧ isBadEnding (ws.getLastD []) = true then
          dropBadGo n ws.dropLast else ws)
      by_cases hb : isBadEnding w = true
      · rw [if_pos hb, if_pos ⟨h4, by rw [hD]; exact hb⟩]
        exact ih _
      · rw [if_neg hb, if_neg (by rw [hD]; tauto)]
    · show (if 4 < ws.length then
          match ws.getLast? with
          | none => none
          | some w => if isBadEnding w then dropBadGoE n ws.dropLast else some ws
        else some ws) = some (dropBadGo (n + 1) ws)
      rw [if_neg h4, dropBadGo_succ, if_neg (by tauto)]

/-! ### Helper lemmas: the batch driver -/

theorem collectLoop_step (o : Nat → Option (List Char)) (i : Nat) (acc : List (List Char))
    (retry : Nat) :
    collectLoop o i acc retry =
      if 5 ≤ acc.length then acc
      else
        if generate_game_description (o i) = fallbackPhrase then
          if 3 ≤ retry + 1 then acc
          else collectLoop o (i + 1) acc (retry + 1)
        else collectLoop o (i + 1) (acc ++ [generate_game_description (o i)]) 0 := by
  rw [collectLoop]

theorem collect_no_fallback : ∀ (o : Nat → Option (List Char)) (i : Nat)
    (acc : List (List Char)) (retry : Nat), (∀ d ∈ acc, d ≠ fallbackPhrase) →
    ∀ d ∈ collectLoop o i acc retry, d ≠ fallbackPhrase := by
  intro o i acc retry
  induction i, acc, retry using collectLoop.induct o with
  | case1 i acc retry h5 =>
    intro hacc
    rw [collectLoop_step, if_pos h5]
    exact hacc
  | case2 i acc retry h5 hf h3 =>
    intro hacc
    rw [collectLoop_step, if_neg h5, if_pos hf, if_pos h3]
    exact hacc
  | case3 i acc retry h5 hf h3 ih =>
    intro hacc
    rw [collectLoop_step, if_neg h5, if_pos hf, if_neg h3]
    exact ih hacc
  | case4 i acc retry h5 hf ih =>
    intro hacc
    rw [collectLoop_step, if_neg h5, if_neg hf]
    refine ih ?_
    intro d hd
    rcases List.mem_append.1 hd with hd | hd
    · exact hacc d hd
    · simp only [List.mem_singleton] at hd
      exact hd ▸ hf

theorem driverGo_cons (o : List Char → Nat → Option (List Char)) (g : GameRec)
    (rest : List GameRec) (tbl : List (List Char × List (List Char)))
    (req : List (List Char)) :
    driverGo o (g :: rest) tbl req =
      if (tbl.map Prod.fst).contains g.game then driverGo o rest tbl req
      else driverGo o rest (tbl ++ [(g.game, collectLoop (o g.game) 0 [] 0)])
        (req ++ [g.game]) := rfl

theorem driverGo_tbl_inv (o : List Char → Nat → Option (List Char)) :
    ∀ (games : List GameRec) (tbl : List (List Char × List (List Char)))
      (req : List (List Char)),
    (∀ p ∈ tbl, ∀ d ∈ p.2, d ≠ fallbackPhrase) →
    ∀ p ∈ (driverGo o games tbl req).1, ∀ d ∈ p.2, d ≠ fallbackPhrase := by
  intro games
  induction games with
  | nil => intro tbl req h p hp; exact h p hp
  | cons g rest ih =>
    intro tbl req h p hp
    rw [driverGo_cons] at hp
    by_cases hc : (tbl.map Prod.fst).contains g.game = true
    · rw [if_pos hc] at hp
      exact ih tbl req h p hp
    · rw [if_neg hc] at hp
      refine ih _ _ ?_ p hp
      intro p2 hp2
      rcases List.mem_append.1 hp2 with hp2 | hp2
      · exact h p2 hp2
      · simp only [List.mem_singleton] at hp2
        subst hp2
        exact collect_no_fallback _ 0 [] 0 (by simp)

theorem driverGo_req_src (o : List Char → Nat → Option (List Char)) :
    ∀ (games : List GameRec) (tbl : List (List Char × List (List Char)))
      (req : List (List Char)) (t : List Char),
    t ∈ (driverGo o games tbl req).2 → t ∈ req ∨ t ∉ tbl.map Prod.fst := by
  intro games
  induction games with
  | nil => intro tbl req t ht; exact Or.inl ht
  | cons g rest ih =>
    intro tbl req t ht
    rw [driverGo_cons] at ht
    by_cases hc : (tbl.map Prod.fst).contains g.game = true
    · rw [if_pos hc] at ht
      exact ih tbl req t ht
    · rw [if_neg hc] at ht
      have hg : g.game ∉ tbl.map Prod.fst := fun hm => hc (List.elem_iff.2 hm)
      rcases ih _ _ t ht with hreq | htbl
      · rcases List.mem_append.1 hreq with hreq | hreq
        · exact Or.inl hreq
        · simp only [List.mem_singleton] at hreq
          exact Or.inr (hreq ▸ hg)
      · right
        intro hm
        exact htbl (by rw [List.map_append]; exact List.mem_append.2 (Or.inl hm))

theorem driverGo_req_mono (o : List Char → Nat → Option (List Char)) :
    ∀ (games : List GameRec) (tbl : List (List Char × List (List Char)))
      (req : List (List Char)) (t : List Char),
    t ∈ req → t ∈ (driverGo o games tbl req).2 := by
  intro games
  induction games with
  | nil => intro tbl req t ht; exact ht
  | cons g rest ih =>
    intro tbl req t ht
    rw [driverGo_cons]
    by_cases hc : (tbl.map Prod.fst).contains g.game = true
    · rw [if_pos hc]
      exact ih tbl req t ht
    · rw [if_neg hc]
      exact ih _ _ t (List.mem_append.2 (Or.inl ht))

theorem driverGo_processes (o : List Char → Nat → Option (List Char)) :
    ∀ (games : List GameRec) (tbl : List (List Char × List (List Char)))
      (req : List (List Char)) (g : GameRec),
    g ∈ games → g.game ∉ tbl.map Prod.fst → g.game ∈ (driverGo o games tbl req).2 := by
  intro games
  induction games with
  | nil => intro tbl req g hg; exact absurd hg (by simp)
  | cons h0 rest ih =>
    intro tbl req g hg hnt
    rw [driverGo_cons]
    rcases List.mem_cons.1 hg with rfl | hg
    · have hc : ¬ (tbl.map Prod.fst).contains g.game = true := by
        intro hc
        exact hnt (List.elem_iff.1 hc)
      rw [if_neg hc]
      exact driverGo_req_mono o rest _ _ g.game (List.mem_append.2 (Or.inr (by simp)))
    · by_cases hc : (tbl.map Prod.fst).contains h0.game = true
      · rw [if_pos hc]
        exact ih tbl req g hg hnt
      · rw [if_neg hc]
        by_cases heq : g.game = h0.game
        · exact driverGo_req_mono o rest _ _ g.game
            (List.mem_append.2 (Or.inr (by simp [heq])))
        · refine ih _ _ g hg ?_
          rw [List.map_append]
          intro hm
          rcases List.mem_append.1 hm with hm | hm
          · exact hnt hm
          · simp only [List.map_cons, List.map_nil, List.mem_singleton] at hm
            exact heq hm

/-! ### Claim C3 -/

/-- C3 (amended): on restart the batch driver requests descriptions
exactly for the catalog titles absent from the stored table: a title
with an entry is never re-requested (in particular one holding 5
descriptions), but a stored title holding fewer than 5 descriptions is
also skipped, because the resume test of source line 120 checks key
presence, not entry count. -/
theorem c3_resume_amended (o : List Char → Nat → Option (List Char))
    (games : List GameRec) (init : List (List Char × List (List Char))) :
    (∀ t ∈ init.map Prod.fst, t ∉ (generate_descriptions_for_all_games games init o).2) ∧
    (∀ g ∈ games, g.game ∉ init.map Prod.fst →
      g.game ∈ (generate_descriptions_for_all_games games init o).2) := by
  constructor
  · intro t hinit hres
    rcases driverGo_req_src o games init [] t hres with h | h
    · simp at h
    · exact h hinit
  · intro g hg hninit
    exact driverGo_processes o games init [] g hg hninit

/-- C3 counterexample: a game whose title holds only 2 stored
descriptions (fewer than 5) is skipped and never requested, refuting
the claim that every game lacking 5 stored descriptions is
processed. -/
theorem c3_counterexample :
    (generate_descriptions_for_all_games [⟨"A".data, "g".data⟩]
        [("A".data, ["Fun game with chess".data, "Cool game of war".data])]
        (fun _ _ => none)).2 = [] ∧
    (("A".data, ["Fun game with chess".data, "Cool game of war".data]) ∈
      ([("A".data, ["Fun game with chess".data, "Cool game of war".data])] :
        List (List Char × List (List Char)))) ∧
    ["Fun game with chess".data, "Cool game of war".data].length < 5 := by
  refine ⟨?_, by simp, by simp⟩
  rfl

/-- C3 witness: a stored title is not re-requested and an absent title
is requested. -/
theorem c3_witness :
    "A".data ∉ (generate_descriptions_for_all_games
        [⟨"A".data, "g".data⟩, ⟨"B".data, "g".data⟩]
        [("A".data, [])] (fun _ _ => none)).2 ∧
    "B".data ∈ (generate_descriptions_for_all_games
        [⟨"A".data, "g".data⟩, ⟨"B".data, "g".data⟩]
        [("A".data, [])] (fun _ _ => none)).2 :=
  ⟨(c3_resume_amended (fun _ _ => none) _ _).1 "A".data (by simp),
   (c3_resume_amended (fun _ _ => none) _ _).2 ⟨"B".data, "g".data⟩ (by simp) (by simp)⟩

/-! ### Claim C8 -/

/-- C8: the per-game loop gives up after exactly 3 consecutive fallback
results (the first two merely increment the retry counter), a success
resets the counter, and the driver stores whatever was collected and
continues with the next game rather than aborting. -/
theorem c8_retry_budget (o : Nat → Option (List Char)) (i : Nat)
    (acc : List (List Char)) (retry : Nat) :
    (acc.length < 5 →
      generate_game_description (o i) = fallbackPhrase →
      generate_game_description (o (i + 1)) = fallbackPhrase →
      generate_game_description (o (i + 2)) = fallbackPhrase →
      collectLoop o i acc 0 = acc) ∧
    (acc.length < 5 → generate_game_description (o i) ≠ fallbackPhrase →
      collectLoop o i acc retry =
        collectLoop o (i + 1) (acc ++ [generate_game_description (o i)]) 0) ∧
    (∀ (g : GameRec) (rest : List GameRec) (tbl : List (List Char × List (List Char)))
        (req : List (List Char)) (o2 : List Char → Nat → Option (List Char)),
      (tbl.map Prod.fst).contains g.game = false →
      driverGo o2 (g :: rest) tbl req =
        driverGo o2 rest (tbl ++ [(g.game, collectLoop (o2 g.game) 0 [] 0)])
          (req ++ [g.game])) := by
  refine ⟨?_, ?_, ?_⟩
  · intro hlen hf1 hf2 hf3
    rw [collectLoop_step, if_neg (by omega), if_pos hf1, if_neg (by omega)]
    rw [collectLoop_step, if_neg (by omega), if_pos hf2, if_neg (by omega)]
    rw [collectLoop_step, if_neg (by omega), if_pos hf3, if_pos (by omega)]
  · intro hlen hnf
    rw [collectLoop_step, if_neg (by omega), if_neg hnf]
  · intro g rest tbl req o2 hc
    rw [driverGo_cons, if_neg (by rw [hc]; simp)]

/-- C8 witness: with a service that always fails, the loop stops after
the three consecutive fallbacks with nothing collected. -/
theorem c8_witness : collectLoop (fun _ => none) 0 [] 0 = [] :=
  (c8_retry_budget (fun _ => none) 0 [] 0).1 (by decide) rfl rfl rfl

/-! ### Claim C9 -/

/-- C9: the batch driver never stores the fallback phrase: every
description in a freshly built table differs from it, and a cleaned
response equal to the fallback phrase (even a genuine model output) is
discarded and merely counted as a retry. -/
theorem c9_no_fallback_stored :
    (∀ (o : Nat → Option (List Char)) (i : Nat) (acc : List (List Char)) (retry : Nat),
      (∀ d ∈ acc, d ≠ fallbackPhrase) →
      ∀ d ∈ collectLoop o i acc retry, d ≠ fallbackPhrase) ∧
    (∀ (games : List GameRec) (o : List Char → Nat → Option (List Char))
        (t : List Char) (ds : List (List Char)),
      (t, ds) ∈ (generate_descriptions_for_all_games games [] o).1 →
      ∀ d ∈ ds, d ≠ fallbackPhrase) ∧
    (∀ (o : Nat → Option (List Char)) (i : Nat) (acc : List (List Char)) (retry : Nat),
      acc.length < 5 → generate_game_description (o i) = fallbackPhrase →
      retry + 1 < 3 →
      collectLoop o i acc retry = collectLoop o (i + 1) acc (retry + 1)) := by
  refine ⟨collect_no_fallback, ?_, ?_⟩
  · intro games o t ds hmem
    exact driverGo_tbl_inv o games [] [] (by simp) (t, ds) hmem
  · intro o i acc retry hlen hf h3
    rw [collectLoop_step, if_neg (by omega), if_pos hf, if_neg (by omega)]

/-- C9 witness: the fallback phrase never appears in a collected
list. -/
theorem c9_witness : fallbackPhrase ∉ collectLoop (fun _ => none) 0 [] 0 :=
  fun hmem =>
    c9_no_fallback_stored.1 (fun _ => none) 0 [] 0 (by simp) fallbackPhrase hmem rfl

/-- C7: `clean_description` is total — the variant in which every list
subscript of the source is fallible never returns `none`, and agrees
with `clean_description` on every input string. -/
theorem c7_clean_total (s : List Char) :
    clean_descriptionE s = some (clean_description s) := by
  unfold clean_descriptionE clean_description droppedWords
  rw [dropBadGoE_eq]
  cases hws : dropBadGo (cleanWords s).length (cleanWords s) with
  | nil => rfl
  | cons w tail =>
    show (if (w :: tail).length < 4 then some fallbackPhrase
      else if (w :: tail) = [] then some (pyStripWs (joinSpace (w :: tail)))
      else
        match (w :: tail).head? with
        | none => none
        | some w0 => some (pyStripWs (joinSpace (pyCapitalize w0 :: (w :: tail).tail)))) =
      some (if (w :: tail).length < 4 then fallbackPhrase
        else pyStripWs (joinSpace (capFirst (w :: tail))))
    by_cases h : (w :: tail).length < 4
    · rw [if_pos h, if_pos h]
    · rw [if_neg h, if_neg h, if_neg (by simp)]
      rfl

/-! ### Helper lemmas: list indexing, erasure and permutations -/

theorem getD_mem {α : Type} (l : List α) (i : Nat) (d : α) (h : i < l.length) :
    l.getD i d ∈ l := by
  rw [List.getD_eq_getElem l d h]
  exact List.getElem_mem h

theorem getD_cons_eraseIdx_perm {α : Type} : ∀ (l : List α) (i : Nat) (d : α),
    i < l.length → (l.getD i d :: l.eraseIdx i).Perm l := by
  intro l
  induction l with
  | nil => intro i d h; simp at h
  | cons x xs ih =>
    intro i d h
    cases i with
    | zero => exact List.Perm.refl _
    | succ i =>
      have hi : i < xs.length := by simpa using h
      have h1 : (x :: xs).getD (i + 1) d = xs.getD i d := rfl
      have h2 : (x :: xs).eraseIdx (i + 1) = x :: xs.eraseIdx i := rfl
      rw [h1, h2]
      exact List.Perm.trans (List.Perm.swap x (xs.getD i d) (xs.eraseIdx i))
        (List.Perm.cons x (ih i d hi))

theorem nodup_getD_not_mem_eraseIdx {α : Type} : ∀ (l : List α) (i : Nat) (d : α),
    l.Nodup → i < l.length → l.getD i d ∉ l.eraseIdx i := by
  intro l
  induction l with
  | nil => intro i d _ h; simp at h
  | cons x xs ih =>
    intro i d hnd h
    rcases List.nodup_cons.1 hnd with ⟨hx, hxs⟩
    cases i with
    | zero => exact hx
    | succ i =>
      have hi : i < xs.length := by simpa using h
      have h1 : (x :: xs).getD (i + 1) d = xs.getD i d := rfl
      have h2 : (x :: xs).eraseIdx (i + 1) = x :: xs.eraseIdx i := rfl
      rw [h1, h2]
      intro hm
      rcases List.mem_cons.1 hm with heq | hm2
      · exact hx (heq ▸ getD_mem xs i d hi)
      · exact ih i d hxs hi hm2

theorem map_eraseIdx' {α β : Type} (f : α → β) : ∀ (l : List α) (i : Nat),
    (l.eraseIdx i).map f = (l.map f).eraseIdx i := by
  intro l
  induction l with
  | nil => intro i; rfl
  | cons x xs ih =>
    intro i
    cases i with
    | zero => rfl
    | succ i =>
      show (x :: xs.eraseIdx i).map f = (f x :: (xs.map f).eraseIdx i)
      rw [List.map_cons, ih i]

theorem getD_map' {α β : Type} (f : α → β) (l : List α) (i : Nat) (d : α)
    (h : i < l.length) : (l.map f).getD i (f d) = f (l.getD i d) := by
  have h2 : i < (l.map f).length := by simpa using h
  rw [List.getD_eq_getElem _ _ h, List.getD_eq_getElem _ _ h2]
  simp

theorem pyShuffleGo_perm {α : Type} [Inhabited α] : ∀ (n : Nat) (s : RState) (l : List α),
    l.length ≤ n → ((pyShuffleGo n s l).1).Perm l := by
  intro n
  induction n with
  | zero =>
    intro s l h
    have : l = [] := List.length_eq_zero.1 (Nat.le_antisymm h (Nat.zero_le _))
    subst this
    exact List.Perm.refl _
  | succ n ih =>
    intro s l h
    cases l with
    | nil => exact List.Perm.refl _
    | cons x xs =>
      have hlen : 0 < (x :: xs).length := by simp
      have hj : (rnext s).1 % (x :: xs).length < (x :: xs).length :=
        Nat.mod_lt _ hlen
      have h1 : (pyShuffleGo (n + 1) s (x :: xs)).1 =
          (x :: xs).getD ((rnext s).1 % (x :: xs).length) default ::
            (pyShuffleGo n (rnext s).2
              ((x :: xs).eraseIdx ((rnext s).1 % (x :: xs).length))).1 := rfl
      rw [h1]
      refine List.Perm.trans (List.Perm.cons _ (ih _ _ ?_))
        (getD_cons_eraseIdx_perm _ _ _ hj)
      rw [List.length_eraseIdx, if_pos hj]
      simp only [List.length_cons] at h ⊢
      omega

theorem pyShuffle_perm {α : Type} [Inhabited α] (s : RState) (l : List α) :
    ((pyShuffle s l).1).Perm l :=
  pyShuffleGo_perm l.length s l (le_refl _)

theorem pyRandIndex_ok {α : Type} {l : List α} {s s2 : RState} {i : Nat}
    (h : pyRandIndex l s = .ok (i, s2)) : i < l.length := by
  unfold pyRandIndex at h
  by_cases h0 : l.length = 0
  · rw [if_pos h0] at h
    exact Except.noConfusion h
  · rw [if_neg h0] at h
    have : (rnext s).1 % l.length = i := by
      have := Except.ok.inj h
      exact (Prod.mk.injEq _ _ _ _ ▸ this).1
    rw [← this]
    exact Nat.mod_lt _ (Nat.pos_of_ne_zero h0)

theorem pyChoice_ok {α : Type} [Inhabited α] {l : List α} {s s2 : RState} {a : α}
    (h : pyChoice l s = .ok (a, s2)) : a ∈ l := by
  unfold pyChoice at h
  by_cases h0 : l.length = 0
  · rw [if_pos h0] at h
    exact Except.noConfusion h
  · rw [if_neg h0] at h
    have ha : l.getD ((rnext s).1 % l.length) default = a := by
      have := Except.ok.inj h
      exact (Prod.mk.injEq _ _ _ _ ▸ this).1
    rw [← ha]
    exact getD_mem l _ default (Nat.mod_lt _ (Nat.pos_of_ne_zero h0))

/-! ### Helper lemmas: inversion of one question round -/

theorem roundFinish_spec {descs : List (String × List String)} {rg : PyGame} {sgc : String}
    {ufb : Bool} {avail2 : List PyGame} {s2 : RState} {q : Question} {fb : Bool}
    {availOut : List PyGame} {s' : RState}
    (h : roundFinish descs rg sgc ufb avail2 s2 = .ok ((q, fb), (availOut, s'))) :
    availOut = avail2 ∧ fb = ufb ∧ q.correct_answer = rg.game ∧
    ∃ fG scG : PyGame,
      (∃ j, j < (avail2.filter (fun g => g.genre != rg.genre)).length ∧
        fG = (avail2.filter (fun g => g.genre != rg.genre)).getD j default ∧
        scG ∈ (avail2.filter (fun g => g.genre != rg.genre)).eraseIdx j) ∧
      q.choices.Perm [rg.game, sgc, fG.game, scG.game] := by
  unfold roundFinish at h
  dsimp only at h
  cases h1 : pyRandIndex (avail2.filter (fun g => g.genre != rg.genre)) s2 with
  | error e => rw [h1] at h; exact Except.noConfusion h
  | ok p1 =>
    obtain ⟨idx1, s3⟩ := p1
    rw [h1] at h
    dsimp only at h
    cases h2 : pyRandIndex ((avail2.filter (fun g => g.genre != rg.genre)).eraseIdx idx1) s3 with
    | error e => rw [h2] at h; exact Except.noConfusion h
    | ok p2 =>
      obtain ⟨idx2, s4⟩ := p2
      rw [h2] at h
      dsimp only at h
      cases h3 : pyDictGet descs rg.game with
      | error e => rw [h3] at h; exact Except.noConfusion h
      | ok descList =>
        rw [h3] at h
        dsimp only at h
        cases h4 : pyChoice descList s4 with
        | error e => rw [h4] at h; exact Except.noConfusion h
        | ok p4 =>
          obtain ⟨description, s5⟩ := p4
          rw [h4] at h
          dsimp only at h
          have h5 := Except.ok.inj h
          obtain ⟨hqb, hrest⟩ := Prod.mk.injEq .. ▸ h5
          obtain ⟨hq, hfb⟩ := Prod.mk.injEq .. ▸ hqb
          obtain ⟨hav, _⟩ := Prod.mk.injEq .. ▸ hrest
          subst hq
          subst hfb
          subst hav
          refine ⟨rfl, rfl, rfl,
            (avail2.filter (fun g => g.genre != rg.genre)).getD idx1 default,
            ((avail2.filter (fun g => g.genre != rg.genre)).eraseIdx idx1).getD idx2 default,
            ⟨idx1, pyRandIndex_ok h1, rfl, getD_mem _ _ _ (pyRandIndex_ok h2)⟩, ?_⟩
          exact pyShuffle_perm s5 _

theorem roundStep_spec {descs : List (String × List String)} {avail : List PyGame}
    {s0 : RState} {q : Question} {fb : Bool} {availOut : List PyGame} {s' : RState}
    (h : roundStep descs avail s0 = .ok ((q, fb), (availOut, s'))) :
    ∃ i, i < avail.length ∧ availOut = avail.eraseIdx i ∧
      q.correct_answer = (avail.getD i default).game ∧
      ∃ sgG fG scG : PyGame,
        sgG ∈ avail.eraseIdx i ∧
        (fb = false → sgG.genre = (avail.getD i default).genre) ∧
        (∃ j, j < ((avail.eraseIdx i).filter
            (fun g => g.genre != (avail.getD i default).genre)).length ∧
          fG = ((avail.eraseIdx i).filter
            (fun g => g.genre != (avail.getD i default).genre)).getD j default ∧
          scG ∈ ((avail.eraseIdx i).filter
            (fun g => g.genre != (avail.getD i default).genre)).eraseIdx j) ∧
        q.choices.Perm [(avail.getD i default).game, sgG.game, fG.game, scG.game] := by
  unfold roundStep at h
  cases h0 : pyRandIndex avail s0 with
  | error e => rw [h0] at h; exact Except.noConfusion h
  | ok p =>
    obtain ⟨idx, s1⟩ := p
    rw [h0] at h
    dsimp only at h
    refine ⟨idx, pyRandIndex_ok h0, ?_⟩
    by_cases hsg : ((avail.eraseIdx idx).filter
        (fun g => g.genre == (avail.getD idx default).genre)).length = 0
    · rw [if_pos hsg] at h
      cases h1 : pyChoice ((avail.eraseIdx idx).filter
          (fun g => g.genre != (avail.getD idx default).genre)) s1 with
      | error e => rw [h1] at h; exact Except.noConfusion h
      | ok p1 =>
        obtain ⟨g1, s2⟩ := p1
        rw [h1] at h
        dsimp only at h
        obtain ⟨hA, hfb, hcorr, fG, scG, hj, hperm⟩ := roundFinish_spec h
        have hg1 : g1 ∈ avail.eraseIdx idx :=
          List.Sublist.subset (List.filter_sublist _) (pyChoice_ok h1)
        exact ⟨hA, hcorr, g1, fG, scG, hg1,
          fun hff => absurd (hff ▸ hfb) (by simp), hj, hperm⟩
    · rw [if_neg hsg] at h
      cases h1 : pyChoice ((avail.eraseIdx idx).filter
          (fun g => g.genre == (avail.getD idx default).genre)) s1 with
      | error e => rw [h1] at h; exact Except.noConfusion h
      | ok p1 =>
        obtain ⟨g1, s2⟩ := p1
        rw [h1] at h
        dsimp only at h
        obtain ⟨hA, hfb, hcorr, fG, scG, hj, hperm⟩ := roundFinish_spec h
        have hg1f := List.mem_filter.1 (pyChoice_ok h1)
        exact ⟨hA, hcorr, g1, fG, scG, hg1f.1,
          fun _ => by simpa using hg1f.2, hj, hperm⟩

/-- Per-round properties of a successfully generated question, under
the precondition that catalog titles are unique: 4 choices, the correct
answer exactly once, at least 3 distinct entries always, full
distinctness when the same-genre fallback was not taken; plus the pool
bookkeeping needed to chain rounds. -/
theorem roundStep_goodQ {descs : List (String × List String)} {avail : List PyGame}
    {s0 : RState} {q : Question} {fb : Bool} {availOut : List PyGame} {s' : RState}
    (h : roundStep descs avail s0 = .ok ((q, fb), (availOut, s')))
    (hnd : (avail.map PyGame.game).Nodup) :
    q.choices.length = 4 ∧
    q.choices.count q.correct_answer = 1 ∧
    3 ≤ q.choices.toFinset.card ∧
    (fb = false → q.choices.Nodup) ∧
    q.correct_answer ∈ avail.map PyGame.game ∧
    q.correct_answer ∉ availOut.map PyGame.game ∧
    (availOut.map PyGame.game).Nodup ∧
    (availOut.map PyGame.game).Sublist (avail.map PyGame.game) := by
  obtain ⟨i, hi, hA, hcorr, sgG, fG, scG, hsgmem, hsggenre, ⟨j, hj, hfG, hscmem⟩, hperm⟩ :=
    roundStep_spec h
  subst hA
  have titlesE : (avail.eraseIdx i).map PyGame.game = (avail.map PyGame.game).eraseIdx i :=
    map_eraseIdx' PyGame.game avail i
  have hndE : ((avail.eraseIdx i).map PyGame.game).Nodup := by
    rw [titlesE]
    exact List.Nodup.sublist (List.eraseIdx_sublist _ i) hnd
  have hsubE : ((avail.eraseIdx i).map PyGame.game).Sublist (avail.map PyGame.game) := by
    rw [titlesE]
    exact List.eraseIdx_sublist _ i
  have hiM : i < (avail.map PyGame.game).length := by simpa using hi
  have hgetDmap : (avail.map PyGame.game).getD i (PyGame.game default) =
      (avail.getD i default).game := getD_map' PyGame.game avail i default hi
  have hcorrMem : q.correct_answer ∈ avail.map PyGame.game := by
    rw [hcorr]
    exact List.mem_map_of_mem PyGame.game (getD_mem avail i default hi)
  have hcorrNot : q.correct_answer ∉ (avail.eraseIdx i).map PyGame.game := by
    rw [hcorr, titlesE]
    have h2 := nodup_getD_not_mem_eraseIdx (avail.map PyGame.game) i
      (PyGame.game default) hnd hiM
    rw [hgetDmap] at h2
    exact h2
  have hfmem : fG ∈ (avail.eraseIdx i).filter
      (fun g => g.genre != (avail.getD i default).genre) := hfG ▸ getD_mem _ j default hj
  have hfmem2 : fG ∈ avail.eraseIdx i := (List.filter_sublist _).subset hfmem
  have hscDIFF : scG ∈ (avail.eraseIdx i).filter
      (fun g => g.genre != (avail.getD i default).genre) :=
    (List.eraseIdx_sublist _ j).subset hscmem
  have hscmem2 : scG ∈ avail.eraseIdx i := (List.filter_sublist _).subset hscDIFF
  have hTsg : sgG.game ∈ (avail.eraseIdx i).map PyGame.game :=
    List.mem_map_of_mem PyGame.game hsgmem
  have hTf : fG.game ∈ (avail.eraseIdx i).map PyGame.game :=
    List.mem_map_of_mem PyGame.game hfmem2
  have hTsc : scG.game ∈ (avail.eraseIdx i).map PyGame.game :=
    List.mem_map_of_mem PyGame.game hscmem2
  have hne_sg : sgG.game ≠ q.correct_answer := fun e => hcorrNot (e ▸ hTsg)
  have hne_f : fG.game ≠ q.correct_answer := fun e => hcorrNot (e ▸ hTf)
  have hne_sc : scG.game ≠ q.correct_answer := fun e => hcorrNot (e ▸ hTsc)
  have hne_sg' : sgG.game ≠ (avail.getD i default).game := hcorr ▸ hne_sg
  have hne_f' : fG.game ≠ (avail.getD i default).game := hcorr ▸ hne_f
  have hne_sc' : scG.game ≠ (avail.getD i default).game := hcorr ▸ hne_sc
  have hndDIFF : (((avail.eraseIdx i).filter
      (fun g => g.genre != (avail.getD i default).genre)).map PyGame.game).Nodup :=
    List.Nodup.sublist (List.Sublist.map PyGame.game (List.filter_sublist _)) hndE
  have hjM : j < (((avail.eraseIdx i).filter
      (fun g => g.genre != (avail.getD i default).genre)).map PyGame.game).length := by
    simpa using hj
  have hfg_scg : fG.game ≠ scG.game := by
    intro e
    have h1 : (((avail.eraseIdx i).filter
        (fun g => g.genre != (avail.getD i default).genre)).map PyGame.game).getD j
          (PyGame.game default) = fG.game := by
      rw [getD_map' PyGame.game _ j default hj, ← hfG]
    have h2 : scG.game ∈ (((avail.eraseIdx i).filter
        (fun g => g.genre != (avail.getD i default).genre)).map PyGame.game).eraseIdx j := by
      rw [← map_eraseIdx']
      exact List.mem_map_of_mem PyGame.game hscmem
    have h3 := nodup_getD_not_mem_eraseIdx _ j (PyGame.game default) hndDIFF hjM
    rw [h1] at h3
    exact h3 (e ▸ h2)
  have hlen : q.choices.length = 4 := by
    rw [List.Perm.length_eq hperm]
    rfl
  have hcount : q.choices.count q.correct_answer = 1 := by
    rw [List.Perm.count_eq hperm, hcorr, List.count_cons_self,
      List.count_cons_of_ne (Ne.symm hne_sg'), List.count_cons_of_ne (Ne.symm hne_f'),
      List.count_cons_of_ne (Ne.symm hne_sc'), List.count_nil]
  have hsub3 : ({q.correct_answer, fG.game, scG.game} : Finset String) ⊆
      q.choices.toFinset := by
    intro x hx
    rw [List.mem_toFinset, List.Perm.mem_iff hperm]
    rcases Finset.mem_insert.1 hx with rfl | hx
    · rw [hcorr]; simp
    · rcases Finset.mem_insert.1 hx with rfl | hx
      · simp
      · rw [Finset.mem_singleton.1 hx]; simp
  have hnm1 : fG.game ∉ ({scG.game} : Finset String) := by simp [hfg_scg]
  have hnm2 : q.correct_answer ∉ ({fG.game, scG.game} : Finset String) := by
    simp [Finset.mem_insert, Finset.mem_singleton, Ne.symm hne_f, Ne.symm hne_sc]
  have hcard3 : ({q.correct_answer, fG.game, scG.game} : Finset String).card = 3 := by
    rw [Finset.card_insert_of_not_mem hnm2, Finset.card_insert_of_not_mem hnm1,
      Finset.card_singleton]
  have hcard : 3 ≤ q.choices.toFinset.card := hcard3 ▸ Finset.card_le_card hsub3
  refine ⟨hlen, hcount, hcard, ?_, hcorrMem, hcorrNot, hndE, hsubE⟩
  intro hfb
  have hgen := hsggenre hfb
  have hfgen : fG.genre ≠ (avail.getD i default).genre := by
    simpa using (List.mem_filter.1 hfmem).2
  have hscgen : scG.genre ≠ (avail.getD i default).genre := by
    simpa using (List.mem_filter.1 hscDIFF).2
  have hinj := List.inj_on_of_nodup_map hndE
  have hsg_f : sgG.game ≠ fG.game := by
    intro e
    have he := hinj hsgmem hfmem2 e
    rw [he] at hgen
    exact hfgen hgen
  have hsg_sc : sgG.game ≠ scG.game := by
    intro e
    have he := hinj hsgmem hscmem2 e
    rw [he] at hgen
    exact hscgen hgen
  refine (List.Perm.nodup_iff hperm).2 ?_
  refine List.nodup_cons.2 ⟨?_, List.nodup_cons.2 ⟨?_, List.nodup_cons.2
    ⟨?_, List.nodup_singleton _⟩⟩⟩
  · intro hm
    rcases List.mem_cons.1 hm with e | hm
    · exact Ne.symm hne_sg' e
    rcases List.mem_cons.1 hm with e | hm
    · exact Ne.symm hne_f' e
    rcases List.mem_cons.1 hm with e | hm
    · exact Ne.symm hne_sc' e
    · simp at hm
  · intro hm
    rcases List.mem_cons.1 hm with e | hm
    · exact hsg_f e
    rcases List.mem_cons.1 hm with e | hm
    · exact hsg_sc e
    · simp at hm
  · intro hm
    rcases List.mem_cons.1 hm with e | hm
    · exact hfg_scg e
    · simp at hm

/-- Chained properties of an `n`-round run: distinct correct answers
drawn from the pool, and the per-question choice properties. -/
theorem createQuestionsAux_spec (descs : List (String × List String)) :
    ∀ (n : Nat) (avail : List PyGame) (s : RState) (qbs : List (Question × Bool)),
    createQuestionsAux descs n avail s = .ok qbs →
    (avail.map PyGame.game).Nodup →
    ((qbs.map fun qb => qb.1.correct_answer).Nodup ∧
      ∀ qb ∈ qbs, qb.1.correct_answer ∈ avail.map PyGame.game ∧
        qb.1.choices.length = 4 ∧
        qb.1.choices.count qb.1.correct_answer = 1 ∧
        3 ≤ qb.1.choices.toFinset.card ∧
        (qb.2 = false → qb.1.choices.Nodup)) := by
  intro n
  induction n with
  | zero =>
    intro avail s qbs h hnd
    have : qbs = [] := (Except.ok.inj h).symm
    subst this
    exact ⟨List.nodup_nil, by simp⟩
  | succ n ih =>
    intro avail s qbs h hnd
    unfold createQuestionsAux at h
    cases hr : roundStep descs avail s with
    | error e => rw [hr] at h; exact Except.noConfusion h
    | ok p =>
      obtain ⟨qb, p2⟩ := p
      obtain ⟨avail2, s2⟩ := p2
      rw [hr] at h
      dsimp only at h
      cases h2 : createQuestionsAux descs n avail2 s2 with
      | error e => rw [h2] at h; exact Except.noConfusion h
      | ok rest =>
        rw [h2] at h
        dsimp only at h
        have hqbs : qbs = qb :: rest := (Except.ok.inj h).symm
        subst hqbs
        obtain ⟨q, fb⟩ := qb
        obtain ⟨hlen, hcount, hcard, hnodup, hmem, hnot, hnd2, hsub⟩ := roundStep_goodQ hr hnd
        obtain ⟨ihnd, ihmem⟩ := ih avail2 s2 rest h2 hnd2
        constructor
        · rw [List.map_cons]
          refine List.nodup_cons.2 ⟨?_, ihnd⟩
          intro hm
          obtain ⟨qb2, hqb2, he⟩ := List.mem_map.1 hm
          exact hnot (he ▸ (ihmem qb2 hqb2).1)
        · intro qb2 hqb2
          rcases List.mem_cons.1 hqb2 with rfl | hqb2
          · exact ⟨hmem, hlen, hcount, hcard, hnodup⟩
          · obtain ⟨hm2, hrest⟩ := ihmem qb2 hqb2
            exact ⟨hsub.subset hm2, hrest⟩

/-! ### Claim C1 -/

/-- C1 (amended): in every successfully generated session over a
catalog with unique titles, each question has exactly 4 choices
containing the correct answer exactly once and at least 3 distinct
entries, and the 4 entries are pairwise distinct whenever the
same-genre decoy did not fall back to a different-genre game.  In the
fallback case the fallback decoy is drawn from the same freshly
rebuilt different-genre list as the two different-genre decoys, so it
can duplicate one of them. -/
theorem c1_choices_amended (games : List PyGame) (descs : List (String × List String))
    (r : RandStream) (qbs : List (Question × Bool))
    (hok : createQuestionsAux descs 5 games ⟨r, 0⟩ = .ok qbs)
    (hnd : (games.map PyGame.game).Nodup) :
    ∀ qb ∈ qbs, qb.1.choices.length = 4 ∧
      qb.1.choices.count qb.1.correct_answer = 1 ∧
      3 ≤ qb.1.choices.toFinset.card ∧
      (qb.2 = false → qb.1.choices.Nodup) := by
  intro qb hqb
  obtain ⟨_, hall⟩ := createQuestionsAux_spec descs 5 games ⟨r, 0⟩ qbs hok hnd
  obtain ⟨_, h4, hc, hcd, hn⟩ := hall qb hqb
  exact ⟨h4, hc, hcd, hn⟩

/-- C1 counterexample: on `catalog10` (unique titles) with the all-zero
stream the whole run succeeds, yet the first question — whose correct
answer `"A"` has a unique genre, forcing the same-genre fallback — has
choices `["A", "B1", "B1", "C1"]`-shaped with a duplicated decoy, so
its 4 entries are not pairwise distinct. -/
theorem c1_counterexample :
    c1run.isOk = true ∧
    (catalog10.map PyGame.game).Nodup ∧
    ¬ ((c1runQbs.getD 0 default).1.choices.Nodup) := by
  refine ⟨by decide, by decide, by decide⟩

/-- C1 witness: the amended properties hold on a concrete successful
run, checked on the second question (where no fallback occurred). -/
theorem c1_witness :
    (c1runQbs.getD 1 default).1.choices.length = 4 ∧
    (c1runQbs.getD 1 default).1.choices.count
      (c1runQbs.getD 1 default).1.correct_answer = 1 ∧
    3 ≤ (c1runQbs.getD 1 default).1.choices.toFinset.card ∧
    ((c1runQbs.getD 1 default).2 = false → (c1runQbs.getD 1 default).1.choices.Nodup) :=
  c1_choices_amended catalog10 table10 r0 c1runQbs (by rfl) (by decide)
    (c1runQbs.getD 1 default) (by decide)

/-! ### Claim C5 -/

/-- C5: in every successfully generated session over a catalog with
unique titles, the 5 correct answers are pairwise distinct, because
each round pops its correct answer from the shared pool. -/
theorem c5_correct_answers_distinct (games : List PyGame)
    (descs : List (String × List String)) (r : RandStream) (qs : List Question)
    (hok : create_questions games descs r = .ok qs)
    (hnd : (games.map PyGame.game).Nodup) :
    (qs.map Question.correct_answer).Nodup := by
  unfold create_questions at hok
  cases hq : createQuestionsAux descs 5 games ⟨r, 0⟩ with
  | error e => rw [hq] at hok; exact Except.noConfusion hok
  | ok qbs =>
    rw [hq] at hok
    dsimp only [Except.map] at hok
    have hqs : qs = qbs.map Prod.fst := (Except.ok.inj hok).symm
    subst hqs
    rw [List.map_map]
    exact (createQuestionsAux_spec descs 5 games ⟨r, 0⟩ qbs hq hnd).1

/-- C5 witness: the concrete run on `catalog10` yields 5 pairwise
distinct correct answers. -/
theorem c5_witness : (c5runQs.map Question.correct_answer).Nodup :=
  c5_correct_answers_distinct catalog10 table10 r0 c5runQs (by rfl) (by decide)

/-! ### Claim C2 -/

theorem createQuestionsAux_error {descs : List (String × List String)}
    {avail : List PyGame} {s : RState} {e : PyErr} (n : Nat)
    (h : roundStep descs avail s = .error e) :
    createQuestionsAux descs (n + 1) avail s = .error e := by
  unfold createQuestionsAux
  rw [h]

/-- C2 (amended): when fewer than two different-genre games remain for
the additional decoys, `create_questions` fails with the Python
built-in `ValueError` raised by `random.randint(0, -1)` on the empty
different-genre list (or `IndexError` from `random.choice` in the
same-genre fallback branch); the code never defines or raises a
distinguished `InsufficientCatalogError`.  Shown here for every catalog
of at least two games sharing a single genre, where no different-genre
game ever remains. -/
theorem c2_insufficient_error (games : List PyGame) (descs : List (String × List String))
    (r : RandStream) (h2 : 2 ≤ games.length)
    (hgen : ∀ g ∈ games, ∀ g2 ∈ games, g.genre = g2.genre) :
    create_questions games descs r = .error .valueError := by
  have hlen0 : ¬ games.length = 0 := by omega
  have h0 : pyRandIndex games ⟨r, 0⟩ = .ok (r 0 % games.length, ⟨r, 1⟩) := by
    unfold pyRandIndex
    rw [if_neg hlen0]
    rfl
  have hidx : r 0 % games.length < games.length := Nat.mod_lt _ (by omega)
  have hrg : games.getD (r 0 % games.length) default ∈ games := getD_mem _ _ _ hidx
  have hsubav : games.eraseIdx (r 0 % games.length) ⊆ games :=
    (List.eraseIdx_sublist _ _).subset
  have hlen2 : ¬ (games.eraseIdx (r 0 % games.length)).length = 0 := by
    rw [List.length_eraseIdx, if_pos hidx]
    omega
  have hSG : (games.eraseIdx (r 0 % games.length)).filter
      (fun g => g.genre == (games.getD (r 0 % games.length) default).genre) =
      games.eraseIdx (r 0 % games.length) := by
    refine List.filter_eq_self.2 ?_
    intro g hg
    have := hgen g (hsubav hg) _ hrg
    simp [this]
  have hDIFF : (games.eraseIdx (r 0 % games.length)).filter
      (fun g => g.genre != (games.getD (r 0 % games.length) default).genre) = [] := by
    refine List.filter_eq_nil_iff.2 ?_
    intro g hg
    have := hgen g (hsubav hg) _ hrg
    simp [this]
  have hch : pyChoice (games.eraseIdx (r 0 % games.length)) ⟨r, 1⟩ =
      .ok ((games.eraseIdx (r 0 % games.length)).getD
        (r 1 % (games.eraseIdx (r 0 % games.length)).length) default, ⟨r, 2⟩) := by
    unfold pyChoice
    rw [if_neg hlen2]
    rfl
  have hstep : roundStep descs games ⟨r, 0⟩ = .error .valueError := by
    unfold roundStep
    rw [h0]
    dsimp only
    rw [hSG, if_neg hlen2, hch]
    dsimp only
    unfold roundFinish
    dsimp only
    rw [hDIFF]
    rfl
  have haux : createQuestionsAux descs 5 games ⟨r, 0⟩ = .error .valueError :=
    createQuestionsAux_error 4 hstep
  unfold create_questions
  rw [haux]
  rfl

/-- C2 counterexample: on a two-game single-genre catalog generation
fails with `ValueError`, not with the `InsufficientCatalogError` the
claim names (the source never defines that error). -/
theorem c2_counterexample :
    create_questions [⟨"A", "g"⟩, ⟨"B", "g"⟩] [] r0 = .error .valueError ∧
    create_questions [⟨"A", "g"⟩, ⟨"B", "g"⟩] [] r0 ≠ .error .insufficientCatalog := by
  refine ⟨by decide, by decide⟩

/-- C2 witness: the amended theorem applied to the two-game single-genre
catalog. -/
theorem c2_witness :
    2 ≤ ([⟨"A", "g"⟩, ⟨"B", "g"⟩] : List PyGame).length ∧
    create_questions [⟨"A", "g"⟩, ⟨"B", "g"⟩] [] r0 = .error .valueError :=
  ⟨by decide, c2_insufficient_error [⟨"A", "g"⟩, ⟨"B", "g"⟩] [] r0 (by decide) (by decide)⟩

/-! ### Claim C10 -/

/-- C10: with 4 choices, a `choice_idx` in `{-1, -2, -3, -4}` does not
error — the `/answer` handler evaluates it exactly like `4 + choice_idx`
via Python negative indexing — and the handler raises `IndexError`
precisely when `choice_idx ≥ 4` or `choice_idx < -4`. -/
theorem c10_negative_index (q : Question) (score : Nat) (i : Int)
    (hlen : q.choices.length = 4) :
    ((-4 ≤ i ∧ i < 0) → answerPost q score i = answerPost q score (i + 4)) ∧
    ((answerPost q score i = .error .indexError) ↔ (4 ≤ i ∨ i < -4)) := by
  unfold answerPost pyIndex
  rw [hlen]
  simp only [Nat.cast_ofNat]
  constructor
  · rintro ⟨hge, hlt⟩
    rw [if_neg (by omega), if_pos (by omega), if_pos (by omega)]
  · constructor
    · intro he
      by_contra hc
      push_neg at hc
      obtain ⟨hlt4, hge4⟩ := hc
      by_cases hA : 0 ≤ i ∧ i < 4
      · rw [if_pos hA] at he
        exact Except.noConfusion he
      · rw [if_neg hA, if_pos (by omega)] at he
        exact Except.noConfusion he
    · intro hor
      rw [if_neg (by omega), if_neg (by omega)]

/-- C10 witness: index `-2` on a 4-choice question behaves like index
`2`, and index `5` raises `IndexError`. -/
theorem c10_witness :
    answerPost ⟨"d", "A", ["A", "B", "C", "D"]⟩ 0 (-2) =
      answerPost ⟨"d", "A", ["A", "B", "C", "D"]⟩ 0 2 ∧
    answerPost ⟨"d", "A", ["A", "B", "C", "D"]⟩ 0 5 = .error .indexError :=
  ⟨by
      have := (c10_negative_index ⟨"d", "A", ["A", "B", "C", "D"]⟩ 0 (-2) rfl).1
        (by constructor <;> decide)
      simpa using this,
   (c10_negative_index ⟨"d", "A", ["A", "B", "C", "D"]⟩ 0 5 rfl).2.mpr
      (Or.inl (by decide))⟩

end WeakestHint
